import Mathlib

/-!
Shallow embedding of the incremental BOBJ mesh decoder of
`src/frontend/src/game/Model.ts` (`loadBOBJ` / `readChunks` / `appendChunks`,
lines 35-289).

Modelling conventions:
* a byte chunk is a `List Nat` (byte values as delivered by the stream reader);
  each chunk is assumed to own its `ArrayBuffer` exactly, so `new
  DataView(value.buffer)` and `value.buffer.slice(readIndex)` see precisely the
  chunk's bytes;
* the IEEE-754 fields (`scale`, the three `offset` components) are kept as
  their little-endian bit patterns (`DataView.getFloat64/getFloat32` with
  `littleEndian = true` is a bijection between the 8/4 read bytes and the bit
  pattern of the stored value), so buffer contents stay bit-exact;
* an out-of-bounds `DataView` read (which throws a `RangeError` in JS and
  rejects the surrounding promise) is modelled by `Except.error .rangeError`;
* closure variables that are still `undefined` are modelled as `none`; a JS
  comparison against `undefined` is `false`, which the embedding mirrors by
  matching on the `Option` (guards are `false` in the `none` case);
* `vertices` is a `Uint32Array`, `indices` a `Uint8/16/32Array` depending on
  `indexSize`; since every value written comes from a `getUint8/16/32` read of
  at most the element width for each reachable width pairing, no truncation
  ever occurs and both are modelled as `List Nat` preallocated with zeros;
* the `vertexCount` / `triangleCount` closure variables are derived rendering
  metadata (`vertexBufferSize / stride`, `indexCount / 3`, JS float division);
  `vertexCount` is recovered by `vertexCountOf` below from the stored fields it
  is computed from (Model.ts line 211); no claim touches `triangleCount`.
-/

namespace BOBJ

/-- One delivery unit from the byte-chunk source. -/
abbrev Chunk := List Nat

/-- The `ModelReadState` enum of Model.ts (lines 23-33). -/
inductive ModelReadState
  | IndexSize
  | VertexComponents
  | ScaleFactor
  | ModelOffset
  | VertexCount
  | IndexCount
  | VertexData
  | IndexData
  | Done
deriving DecidableEq, Repr

/-- The only decode-level failure the source can produce: a `DataView` read
beyond the end of the chunk buffer throws a `RangeError`, rejecting the whole
`loadBOBJ` promise. -/
inductive DecodeErr
  | rangeError
deriving DecidableEq, Repr

/-- The closure state of one `loadBOBJ` invocation (Model.ts lines 39-56 and
148): decode state, header fields, output buffers, write indices and the
carry buffer `trailingChunkData`. -/
structure Decoder where
  readState : ModelReadState
  indexSize : Option Nat
  hasColor : Option Bool
  hasNormal : Option Bool
  hasUV : Option Bool
  scaleBits : Nat
  offsetBits : Nat × Nat × Nat
  vertexBufferSize : Option Nat
  vertices : List Nat
  vertexWriteIndex : Nat
  indexCount : Option Nat
  indices : List Nat
  indicesWriteIndex : Nat
  carry : Chunk
deriving DecidableEq, Repr

/-- Initial closure state: `scale = 1.0` (bit pattern 0x3FF0000000000000),
`offset = vec3.create()` (three zero floats), everything else undefined or
zero, `trailingChunkData = null`. -/
def initDecoder : Decoder where
  readState := .IndexSize
  indexSize := none
  hasColor := none
  hasNormal := none
  hasUV := none
  scaleBits := 0x3FF0000000000000
  offsetBits := (0, 0, 0)
  vertexBufferSize := none
  vertices := []
  vertexWriteIndex := 0
  indexCount := none
  indices := []
  indicesWriteIndex := 0
  carry := []

/-- Little-endian byte composition, 4 bytes. -/
def leU32 (a b c d : Nat) : Nat :=
  a + 256 * b + 65536 * c + 16777216 * d

/-- Little-endian byte composition, 8 bytes. -/
def leU64 (a b c d e f g h : Nat) : Nat :=
  leU32 a b c d + 4294967296 * leU32 e f g h

/-- `DataView.getUint8(i)` on the chunk, value only (bounds handled at the
call sites that can actually go out of bounds). -/
def readU8 (c : Chunk) (i : Nat) : Nat := c.getD i 0

/-- `DataView.getUint16(i, true)`. -/
def readU16 (c : Chunk) (i : Nat) : Nat :=
  c.getD i 0 + 256 * c.getD (i + 1) 0

/-- `DataView.getUint32(i, true)`. -/
def readU32 (c : Chunk) (i : Nat) : Nat :=
  c.getD i 0 + 256 * c.getD (i + 1) 0 + 65536 * c.getD (i + 2) 0 +
    16777216 * c.getD (i + 3) 0

/-- Bit pattern read by `DataView.getFloat64(i, true)`. -/
def readU64 (c : Chunk) (i : Nat) : Nat :=
  readU32 c i + 4294967296 * readU32 c (i + 4)

/-- Words per vertex record: `hasUV && hasNormal ? 4 : hasUV || hasNormal ? 3 : 2`
(Model.ts line 211). -/
def strideOf (uv nrm : Bool) : Nat :=
  if uv && nrm then 4 else if uv || nrm then 3 else 2

/-- The `vertexCount` closure variable (Model.ts line 211):
`vertexBufferSize / stride`, a JS float division, recovered here as exact
division from the fields it is computed from (which are immutable once set). -/
def vertexCountOf (d : Decoder) : Option ℚ :=
  d.vertexBufferSize.map
    (fun n => (n : ℚ) / (strideOf (d.hasUV.getD false) (d.hasNormal.getD false) : ℚ))

/-- Model.ts lines 170-176: index-size field. Guard is `chunkSize >= 1`; the
read `view.getUint8(0)` is at absolute offset 0 and is in bounds whenever the
guard holds. -/
def stageIndexSize (c : Chunk) (d : Decoder) (ri : Nat) : Decoder × Nat :=
  if d.readState = .IndexSize ∧ 1 ≤ c.length then
    ({ d with readState := .VertexComponents, indexSize := some (readU8 c 0) }, ri + 1)
  else (d, ri)

/-- Model.ts lines 177-190: component-bitmask field. The guard is
`chunkSize >= 1` — NOT `chunkSize - readIndex >= 1` — so `view.getUint8(readIndex)`
can be out of bounds (readIndex = chunkSize = 1 after a 1-byte chunk consumed
the index-size field), throwing a `RangeError`. -/
def stageComponents (c : Chunk) (d : Decoder) (ri : Nat) :
    Except DecodeErr (Decoder × Nat) :=
  if d.readState = .VertexComponents ∧ 1 ≤ c.length then
    if ri + 1 ≤ c.length then
      let m := readU8 c ri
      .ok ({ d with readState := .ScaleFactor,
                    hasColor := some (m &&& 4 != 0),
                    hasNormal := some (m &&& 2 != 0),
                    hasUV := some (m &&& 1 != 0) }, ri + 1)
    else .error .rangeError
  else .ok (d, ri)

/-- Model.ts lines 191-197: scale factor, 8 bytes, `getFloat64(ri, true)`
kept as its bit pattern. `chunkSize - readIndex >= 8` is `ri + 8 ≤ chunkSize`
over the actual integers. -/
def stageScale (c : Chunk) (d : Decoder) (ri : Nat) : Decoder × Nat :=
  if d.readState = .ScaleFactor ∧ ri + 8 ≤ c.length then
    ({ d with readState := .ModelOffset, scaleBits := readU64 c ri }, ri + 8)
  else (d, ri)

/-- Model.ts lines 198-206: model offset, three 4-byte floats kept as bit
patterns. -/
def stageOffset (c : Chunk) (d : Decoder) (ri : Nat) : Decoder × Nat :=
  if d.readState = .ModelOffset ∧ ri + 12 ≤ c.length then
    ({ d with readState := .VertexCount,
              offsetBits := (readU32 c ri, readU32 c (ri + 4), readU32 c (ri + 8)) },
     ri + 12)
  else (d, ri)

/-- Model.ts lines 207-218: vertex word count; preallocates the zero-filled
`Uint32Array(vertexBufferSize)`. -/
def stageVertexCount (c : Chunk) (d : Decoder) (ri : Nat) : Decoder × Nat :=
  if d.readState = .VertexCount ∧ ri + 4 ≤ c.length then
    let n := readU32 c ri
    ({ d with readState := .IndexCount, vertexBufferSize := some n,
              vertices := List.replicate n 0 }, ri + 4)
  else (d, ri)

/-- Model.ts lines 219-237: index count; preallocates the zero-filled index
array (`Uint8Array`/`Uint16Array`/`Uint32Array` all start as `indexCount`
zeros, the element width only matters for the later reads). -/
def stageIndexCount (c : Chunk) (d : Decoder) (ri : Nat) : Decoder × Nat :=
  if d.readState = .IndexCount ∧ ri + 4 ≤ c.length then
    let n := readU32 c ri
    ({ d with readState := .VertexData, indexCount := some n,
              indices := List.replicate n 0 }, ri + 4)
  else (d, ri)

/-- Fuel-indexed vertex loop, Model.ts lines 238-251:
`while (readState === VertexData && chunkSize - readIndex >= 4)`; inside, if
`vertexWriteIndex >= vertexBufferSize` the state flips to `IndexData` and the
loop breaks, otherwise one little-endian word is consumed. The fuel only
bounds the recursion; `vertexLoop` below always supplies enough. -/
def vertexLoopF (c : Chunk) : Nat → Decoder → Nat → Decoder × Nat
  | 0, d, ri => (d, ri)
  | fuel + 1, d, ri =>
    if d.readState = .VertexData ∧ ri + 4 ≤ c.length then
      match d.vertexBufferSize with
      | some n =>
        if n ≤ d.vertexWriteIndex then
          ({ d with readState := .IndexData }, ri)
        else
          vertexLoopF c fuel
            { d with vertices := d.vertices.set d.vertexWriteIndex (readU32 c ri),
                     vertexWriteIndex := d.vertexWriteIndex + 1 } (ri + 4)
      | none =>
        -- `vertexWriteIndex >= undefined` is false in JS, so no break; this
        -- branch is unreachable from the initial state (the buffer size is
        -- always set before `readState` becomes `VertexData`).
        vertexLoopF c fuel
          { d with vertices := d.vertices.set d.vertexWriteIndex (readU32 c ri),
                   vertexWriteIndex := d.vertexWriteIndex + 1 } (ri + 4)
    else (d, ri)

/-- The vertex loop; every iteration advances `ri` by 4, so `c.length + 1`
fuel can never run out. -/
def vertexLoop (c : Chunk) (d : Decoder) (ri : Nat) : Decoder × Nat :=
  vertexLoopF c (c.length + 1) d ri

/-- Fuel-indexed index loop, Model.ts lines 252-280:
`while (readState === IndexData && chunkSize - readIndex >= indexSize &&
indicesWriteIndex < indexCount)`. The switch reads 1, 2 or (default) 4 bytes —
for a width outside {1,2,4} the default `getUint32` read can exceed the
remaining bytes and throw — and `readIndex` advances by the raw `indexSize`.
After the write, `indicesWriteIndex >= indexCount` flips the state to `Done`. -/
def indexLoopF (c : Chunk) : Nat → Decoder → Nat → Except DecodeErr (Decoder × Nat)
  | 0, d, ri => .ok (d, ri)
  | fuel + 1, d, ri =>
    match d.indexSize, d.indexCount with
    | some w, some n =>
      if d.readState = .IndexData ∧ ri + w ≤ c.length ∧ d.indicesWriteIndex < n then
        let readW : Nat := if w = 1 then 1 else if w = 2 then 2 else 4
        if ri + readW ≤ c.length then
          let v : Nat := if w = 1 then readU8 c ri else if w = 2 then readU16 c ri
                         else readU32 c ri
          let d1 := { d with indices := d.indices.set d.indicesWriteIndex v,
                             indicesWriteIndex := d.indicesWriteIndex + 1 }
          let d2 := if n ≤ d1.indicesWriteIndex then { d1 with readState := .Done } else d1
          indexLoopF c fuel d2 (ri + w)
        else .error .rangeError
      else .ok (d, ri)
    | _, _ =>
      -- a JS comparison against an undefined `indexSize`/`indexCount` is
      -- false, so the loop guard fails
      .ok (d, ri)

/-- The index loop; every iteration increments `indicesWriteIndex`, which the
guard bounds by `indexCount`, so `indexCount + 1` fuel can never run out. -/
def indexLoop (c : Chunk) (d : Decoder) (ri : Nat) : Except DecodeErr (Decoder × Nat) :=
  indexLoopF c (d.indexCount.getD 0 + 1) d ri

/-- The two payload loops run back-to-back in the same pass (lines 238-280). -/
def runLoops (c : Chunk) (d : Decoder) (ri : Nat) : Except DecodeErr (Decoder × Nat) :=
  match vertexLoop c d ri with
  | (d1, r1) => indexLoop c d1 r1

/-- The index-count stage, then the payload loops. -/
def runTail6 (c : Chunk) (d : Decoder) (ri : Nat) : Except DecodeErr (Decoder × Nat) :=
  match stageIndexCount c d ri with
  | (d6, r6) => runLoops c d6 r6

/-- The vertex-count stage, then everything after it. -/
def runTail5 (c : Chunk) (d : Decoder) (ri : Nat) : Except DecodeErr (Decoder × Nat) :=
  match stageVertexCount c d ri with
  | (d5, r5) => runTail6 c d5 r5

/-- The offset stage, then everything after it. -/
def runTail4 (c : Chunk) (d : Decoder) (ri : Nat) : Except DecodeErr (Decoder × Nat) :=
  match stageOffset c d ri with
  | (d4, r4) => runTail5 c d4 r4

/-- The scale stage, then everything after it. -/
def runTail3 (c : Chunk) (d : Decoder) (ri : Nat) : Except DecodeErr (Decoder × Nat) :=
  match stageScale c d ri with
  | (d3, r3) => runTail4 c d3 r3

/-- The component-bitmask stage (the only header stage that can throw), then
everything after it. -/
def runTail2 (c : Chunk) (d : Decoder) (ri : Nat) : Except DecodeErr (Decoder × Nat) :=
  match stageComponents c d ri with
  | .error e => .error e
  | .ok (d2, r2) => runTail3 c d2 r2

/-- One full `appendChunks` call (Model.ts lines 155-287) on a non-final
chunk: prepend the carry buffer (`trailingChunkData`), run every stage in
order over the merged bytes, then store the unconsumed tail as the new carry
buffer (`trailingChunkData` was reset to null by the merge, so when nothing
is left over the carry ends up empty). -/
def appendChunks (d0 : Decoder) (chunk : Chunk) : Except DecodeErr Decoder :=
  let c : Chunk := d0.carry ++ chunk
  match stageIndexSize c { d0 with carry := [] } 0 with
  | (d1, r1) =>
    match runTail2 c d1 r1 with
    | .error e => .error e
    | .ok (d9, r9) => .ok { d9 with carry := if r9 < c.length then c.drop r9 else [] }

/-- The sequential pull loop `readChunk`/`appendChunks` from a given state:
each chunk is fully processed before the next is requested; a thrown
`RangeError` rejects the promise chain and stops the loop. -/
def runFrom (d : Decoder) : List Chunk → Except DecodeErr Decoder
  | [] => .ok d
  | ch :: rest =>
    match appendChunks d ch with
    | .error e => .error e
    | .ok d1 => runFrom d1 rest

/-- Decode a whole chunk sequence (the reader delivers the chunks in order and
then signals end-of-stream, upon which `appendChunks` just returns and the
promise chain continues to the resolution step). -/
def runDecode (chunks : List Chunk) : Except DecodeErr Decoder :=
  runFrom initDecoder chunks

/-- The buffers-plus-metadata the resolution step (lines 118-131) hands to
the consumer, restricted to the decoded data (the remaining `ModelData`
fields are GL handles built from these). -/
structure MeshBuffers where
  vertexWords : List Nat
  indices : List Nat
  indexWidth : Option Nat
  scaleBits : Nat
  offsetBits : Nat × Nat × Nat
deriving DecidableEq, Repr

/-- Projection of the closure state to the resolved output. -/
def meshOf (d : Decoder) : MeshBuffers :=
  { vertexWords := d.vertices, indices := d.indices, indexWidth := d.indexSize,
    scaleBits := d.scaleBits, offsetBits := d.offsetBits }

/-- The observable result of `loadBOBJ` on a chunk sequence: the code resolves
with whatever the buffers hold once the source signals end-of-stream (the
`done` branch at line 156 simply returns), and rejects only if a stage threw. -/
def loadBOBJ (chunks : List Chunk) : Except DecodeErr MeshBuffers :=
  (runDecode chunks).map meshOf

/-- Number of `reader.read()` calls that are issued while `readState` is
already `Done`: `appendChunks` unconditionally ends with `return readChunk()`
(line 286), and one further read is issued to observe end-of-stream. A read
is attributed to the state the decoder is in when it is issued. -/
def readsAfterDone (d : Decoder) : List Chunk → Nat
  | [] => if d.readState = .Done then 1 else 0
  | ch :: rest =>
    (if d.readState = .Done then 1 else 0) +
      match appendChunks d ch with
      | .error _ => 0
      | .ok d1 => readsAfterDone d1 rest

/-- Byte width of the field the current decode state is waiting for (`none`
once the state machine is `Done`). -/
def pendingFieldWidth (d : Decoder) : Option Nat :=
  match d.readState with
  | .IndexSize => some 1
  | .VertexComponents => some 1
  | .ScaleFactor => some 8
  | .ModelOffset => some 12
  | .VertexCount => some 4
  | .IndexCount => some 4
  | .VertexData => some 4
  | .IndexData => d.indexSize
  | .Done => none

/-! ### Concrete streams used by the claims -/

/-- The 57-byte stream of the spec's concrete scenario (section 8):
indexWidth 1, bitmask 0x1 (UV only), scale 1.5 (bit pattern
0x3FF8000000000000, little-endian bytes 00..F8 3F), offset (0,0,0),
vertexWordCount 6, indexCount 3; vertex words [1..6]; indices [0,1,0]. -/
def stream57 : Chunk :=
  [1, 1,
   0, 0, 0, 0, 0, 0, 0xF8, 0x3F,
   0, 0, 0, 0, 0, 0, 0, 0, 0, 0, 0, 0,
   6, 0, 0, 0,
   3, 0, 0, 0] ++
  [1, 0, 0, 0, 2, 0, 0, 0, 3, 0, 0, 0, 4, 0, 0, 0, 5, 0, 0, 0, 6, 0, 0, 0] ++
  [0, 1, 0]

/-- The first 30 bytes of `stream57`: a header declaring 6 vertex words and
3 indices, with no payload behind it. -/
def hdr30 : Chunk := stream57.take 30

/-- A 30-byte header declaring an empty mesh: indexWidth 1, no components,
vertexWordCount 0, indexCount 0. -/
def emptyHeader30 : Chunk :=
  [1, 0, 0, 0, 0, 0, 0, 0, 0, 0,
   0, 0, 0, 0, 0, 0, 0, 0, 0, 0, 0, 0,
   0, 0, 0, 0, 0, 0, 0, 0]

/-- A stream whose index-width byte is 7 (not one of {1,2,4}): empty vertex
buffer, one declared index, followed by 8 payload bytes. -/
def width7Stream (p0 p1 p2 p3 p4 p5 p6 p7 : Nat) : Chunk :=
  [7, 0, 0, 0, 0, 0, 0, 0, 0, 0,
   0, 0, 0, 0, 0, 0, 0, 0, 0, 0, 0, 0,
   0, 0, 0, 0, 1, 0, 0, 0] ++ [p0, p1, p2, p3, p4, p5, p6, p7]

/-- A 34-byte stream that drives the decoder to `Done` in one chunk:
indexWidth 4, vertexWordCount 0, indexCount 1, one 4-byte index 0xAA. -/
def doneStream : Chunk :=
  [4, 0, 0, 0, 0, 0, 0, 0, 0, 0,
   0, 0, 0, 0, 0, 0, 0, 0, 0, 0, 0, 0,
   0, 0, 0, 0, 1, 0, 0, 0] ++ [0xAA, 0, 0, 0]

/-! ### Auxiliary definitions for the invariant and header lemmas -/

/-- The fields that neither payload loop ever writes: header data and the
carry buffer (the loops only touch `vertices`/`vertexWriteIndex` resp.
`indices`/`indicesWriteIndex` and `readState`). -/
def hdrPart (d : Decoder) :=
  (d.indexSize, d.hasColor, d.hasNormal, d.hasUV, d.scaleBits, d.offsetBits,
   d.vertexBufferSize, d.indexCount, d.carry)

/-- Resting condition after one full pass, as a function of the number `rem`
of unconsumed bytes (which become the carry): in every state that still
awaits a mandatory field, `rem` is strictly below that field's width; in
`IndexData` the bound only holds while indices are still pending; beyond that
(`Done`, or all indices written) the tail can be arbitrarily long.
`VertexComponents` is never a resting state: with at least one unconsumed
byte its guard fires, and with zero it cannot be entered. -/
def post (d : Decoder) (rem : Nat) : Prop :=
  match d.readState with
  | .IndexSize => rem = 0
  | .VertexComponents => False
  | .ScaleFactor => d.indexSize.isSome ∧ rem < 8
  | .ModelOffset => d.indexSize.isSome ∧ rem < 12
  | .VertexCount => d.indexSize.isSome ∧ rem < 4
  | .IndexCount => d.indexSize.isSome ∧ d.vertexBufferSize.isSome ∧ rem < 4
  | .VertexData =>
      d.indexSize.isSome ∧ d.vertexBufferSize.isSome ∧ d.indexCount.isSome ∧ rem < 4
  | .IndexData =>
      ∃ w n, d.indexSize = some w ∧ d.indexCount = some n ∧
        (d.indicesWriteIndex < n → rem < w)
  | .Done => True

/-- Invariant of every reachable resting state: `post` with the carry buffer
as the unconsumed tail. -/
def inv (d : Decoder) : Prop := post d d.carry.length

/-- The decoder state right after the six header stages have consumed the
first 30 bytes of a chunk, per the wire format of the source. -/
def headerResult (c : Chunk) : Decoder where
  readState := .VertexData
  indexSize := some (readU8 c 0)
  hasColor := some (readU8 c 1 &&& 4 != 0)
  hasNormal := some (readU8 c 1 &&& 2 != 0)
  hasUV := some (readU8 c 1 &&& 1 != 0)
  scaleBits := readU64 c 2
  offsetBits := (readU32 c 10, readU32 c 14, readU32 c 18)
  vertexBufferSize := some (readU32 c 22)
  vertices := List.replicate (readU32 c 22) 0
  vertexWriteIndex := 0
  indexCount := some (readU32 c 26)
  indices := List.replicate (readU32 c 26) 0
  indicesWriteIndex := 0
  carry := []

/-- The decoder state after processing `hdr30` as a single chunk. -/
def dHdr30 : Decoder where
  readState := .VertexData
  indexSize := some 1
  hasColor := some false
  hasNormal := some false
  hasUV := some true
  scaleBits := 0x3FF8000000000000
  offsetBits := (0, 0, 0)
  vertexBufferSize := some 6
  vertices := [0, 0, 0, 0, 0, 0]
  vertexWriteIndex := 0
  indexCount := some 3
  indices := [0, 0, 0]
  indicesWriteIndex := 0
  carry := []

/-- The decoder state after processing `doneStream` as a single chunk. -/
def dDone : Decoder where
  readState := .Done
  indexSize := some 4
  hasColor := some false
  hasNormal := some false
  hasUV := some false
  scaleBits := 0
  offsetBits := (0, 0, 0)
  vertexBufferSize := some 0
  vertices := []
  vertexWriteIndex := 0
  indexCount := some 1
  indices := [0xAA]
  indicesWriteIndex := 1
  carry := []

/-- The decoder state after processing the 30-byte header
`[2, 3, 1, 0, 0, 0, 0, 0, 0, 0, 0 ×12, 5, 0, 0, 0, 0, 0, 0, 0]` as a single
chunk. -/
def dC8W : Decoder where
  readState := .VertexData
  indexSize := some 2
  hasColor := some false
  hasNormal := some true
  hasUV := some true
  scaleBits := 1
  offsetBits := (0, 0, 0)
  vertexBufferSize := some 5
  vertices := [0, 0, 0, 0, 0]
  vertexWriteIndex := 0
  indexCount := some 0
  indices := []
  indicesWriteIndex := 0
  carry := []

/-! ### Stage characterization lemmas -/

theorem stageIndexSize_neg {c : Chunk} {d : Decoder} {ri : Nat}
    (h : ¬(d.readState = .IndexSize ∧ 1 ≤ c.length)) :
    stageIndexSize c d ri = (d, ri) := by
  simp only [stageIndexSize, if_neg h]

theorem stageIndexSize_ne {c : Chunk} {d : Decoder} {ri : Nat}
    (h : d.readState ≠ .IndexSize) :
    stageIndexSize c d ri = (d, ri) :=
  stageIndexSize_neg (fun hc => h hc.1)

theorem stageIndexSize_pos {c : Chunk} {d : Decoder} {ri : Nat}
    (h1 : d.readState = .IndexSize) (h2 : 1 ≤ c.length) :
    stageIndexSize c d ri =
      ({ d with readState := .VertexComponents, indexSize := some (readU8 c 0) },
       ri + 1) := by
  simp only [stageIndexSize, if_pos (And.intro h1 h2)]

theorem stageComponents_ne {c : Chunk} {d : Decoder} {ri : Nat}
    (h : d.readState ≠ .VertexComponents) :
    stageComponents c d ri = .ok (d, ri) := by
  have hng : ¬(d.readState = ModelReadState.VertexComponents ∧ 1 ≤ c.length) :=
    fun hc => h hc.1
  simp only [stageComponents, if_neg hng]

theorem stageComponents_ok {c : Chunk} {d : Decoder} {ri : Nat}
    (h1 : d.readState = .VertexComponents) (h2 : 1 ≤ c.length)
    (h3 : ri + 1 ≤ c.length) :
    stageComponents c d ri =
      .ok ({ d with readState := .ScaleFactor,
                    hasColor := some (readU8 c ri &&& 4 != 0),
                    hasNormal := some (readU8 c ri &&& 2 != 0),
                    hasUV := some (readU8 c ri &&& 1 != 0) }, ri + 1) := by
  simp only [stageComponents, if_pos (And.intro h1 h2), if_pos h3]

theorem stageScale_neg {c : Chunk} {d : Decoder} {ri : Nat}
    (h : ¬(d.readState = .ScaleFactor ∧ ri + 8 ≤ c.length)) :
    stageScale c d ri = (d, ri) := by
  simp only [stageScale, if_neg h]

theorem stageScale_ne {c : Chunk} {d : Decoder} {ri : Nat}
    (h : d.readState ≠ .ScaleFactor) :
    stageScale c d ri = (d, ri) :=
  stageScale_neg (fun hc => h hc.1)

theorem stageScale_pos {c : Chunk} {d : Decoder} {ri : Nat}
    (h1 : d.readState = .ScaleFactor) (h2 : ri + 8 ≤ c.length) :
    stageScale c d ri =
      ({ d with readState := .ModelOffset, scaleBits := readU64 c ri }, ri + 8) := by
  simp only [stageScale, if_pos (And.intro h1 h2)]

theorem stageOffset_neg {c : Chunk} {d : Decoder} {ri : Nat}
    (h : ¬(d.readState = .ModelOffset ∧ ri + 12 ≤ c.length)) :
    stageOffset c d ri = (d, ri) := by
  simp only [stageOffset, if_neg h]

theorem stageOffset_ne {c : Chunk} {d : Decoder} {ri : Nat}
    (h : d.readState ≠ .ModelOffset) :
    stageOffset c d ri = (d, ri) :=
  stageOffset_neg (fun hc => h hc.1)

theorem stageOffset_pos {c : Chunk} {d : Decoder} {ri : Nat}
    (h1 : d.readState = .ModelOffset) (h2 : ri + 12 ≤ c.length) :
    stageOffset c d ri =
      ({ d with readState := .VertexCount,
                offsetBits := (readU32 c ri, readU32 c (ri + 4), readU32 c (ri + 8)) },
       ri + 12) := by
  simp only [stageOffset, if_pos (And.intro h1 h2)]

theorem stageVertexCount_neg {c : Chunk} {d : Decoder} {ri : Nat}
    (h : ¬(d.readState = .VertexCount ∧ ri + 4 ≤ c.length)) :
    stageVertexCount c d ri = (d, ri) := by
  simp only [stageVertexCount, if_neg h]

theorem stageVertexCount_ne {c : Chunk} {d : Decoder} {ri : Nat}
    (h : d.readState ≠ .VertexCount) :
    stageVertexCount c d ri = (d, ri) :=
  stageVertexCount_neg (fun hc => h hc.1)

theorem stageVertexCount_pos {c : Chunk} {d : Decoder} {ri : Nat}
    (h1 : d.readState = .VertexCount) (h2 : ri + 4 ≤ c.length) :
    stageVertexCount c d ri =
      ({ d with readState := .IndexCount, vertexBufferSize := some (readU32 c ri),
                vertices := List.replicate (readU32 c ri) 0 }, ri + 4) := by
  simp only [stageVertexCount, if_pos (And.intro h1 h2)]

theorem stageIndexCount_neg {c : Chunk} {d : Decoder} {ri : Nat}
    (h : ¬(d.readState = .IndexCount ∧ ri + 4 ≤ c.length)) :
    stageIndexCount c d ri = (d, ri) := by
  simp only [stageIndexCount, if_neg h]

theorem stageIndexCount_ne {c : Chunk} {d : Decoder} {ri : Nat}
    (h : d.readState ≠ .IndexCount) :
    stageIndexCount c d ri = (d, ri) :=
  stageIndexCount_neg (fun hc => h hc.1)

theorem stageIndexCount_pos {c : Chunk} {d : Decoder} {ri : Nat}
    (h1 : d.readState = .IndexCount) (h2 : ri + 4 ≤ c.length) :
    stageIndexCount c d ri =
      ({ d with readState := .VertexData, indexCount := some (readU32 c ri),
                indices := List.replicate (readU32 c ri) 0 }, ri + 4) := by
  simp only [stageIndexCount, if_pos (And.intro h1 h2)]

/-! ### Vertex loop lemmas -/

theorem vertexLoopF_notVD {c : Chunk} (fuel : Nat) {d : Decoder} {ri : Nat}
    (h : d.readState ≠ .VertexData) : vertexLoopF c fuel d ri = (d, ri) := by
  cases fuel with
  | zero => rfl
  | succ n =>
    have hng : ¬(d.readState = ModelReadState.VertexData ∧ ri + 4 ≤ c.length) :=
      fun hc => h hc.1
    simp only [vertexLoopF, if_neg hng]

theorem vertexLoopF_succ_some {c : Chunk} {fuel : Nat} {d : Decoder} {ri m : Nat}
    (hvb : d.vertexBufferSize = some m) :
    vertexLoopF c (fuel + 1) d ri =
      if d.readState = .VertexData ∧ ri + 4 ≤ c.length then
        if m ≤ d.vertexWriteIndex then ({ d with readState := .IndexData }, ri)
        else
          vertexLoopF c fuel
            { d with vertices := d.vertices.set d.vertexWriteIndex (readU32 c ri),
                     vertexWriteIndex := d.vertexWriteIndex + 1 } (ri + 4)
      else (d, ri) := by
  simp only [vertexLoopF]
  rw [hvb]

theorem vertexLoopF_succ_none {c : Chunk} {fuel : Nat} {d : Decoder} {ri : Nat}
    (hvb : d.vertexBufferSize = none) :
    vertexLoopF c (fuel + 1) d ri =
      if d.readState = .VertexData ∧ ri + 4 ≤ c.length then
        vertexLoopF c fuel
          { d with vertices := d.vertices.set d.vertexWriteIndex (readU32 c ri),
                   vertexWriteIndex := d.vertexWriteIndex + 1 } (ri + 4)
      else (d, ri) := by
  simp only [vertexLoopF]
  rw [hvb]

theorem vertexLoop_notVD {c : Chunk} {d : Decoder} {ri : Nat}
    (h : d.readState ≠ .VertexData) : vertexLoop c d ri = (d, ri) :=
  vertexLoopF_notVD _ h

theorem vertexLoopF_pres (c : Chunk) :
    ∀ (fuel : Nat) (d : Decoder) (ri : Nat),
      hdrPart (vertexLoopF c fuel d ri).1 = hdrPart d ∧
      (vertexLoopF c fuel d ri).1.indices = d.indices ∧
      (vertexLoopF c fuel d ri).1.indicesWriteIndex = d.indicesWriteIndex := by
  intro fuel
  induction fuel with
  | zero => intro d ri; exact ⟨rfl, rfl, rfl⟩
  | succ n ih =>
    intro d ri
    simp only [vertexLoopF]
    split
    · split
      · split
        · exact ⟨rfl, rfl, rfl⟩
        · exact ih _ _
      · exact ih _ _
    · exact ⟨rfl, rfl, rfl⟩

theorem vertexLoopF_post (c : Chunk) :
    ∀ (fuel : Nat) (d : Decoder) (ri : Nat),
      c.length - ri < fuel → d.readState = .VertexData → ri ≤ c.length →
      ∀ d2 r2, vertexLoopF c fuel d ri = (d2, r2) →
        r2 ≤ c.length ∧
        ((d2.readState = .VertexData ∧ c.length < r2 + 4) ∨
          d2.readState = .IndexData) := by
  intro fuel
  induction fuel with
  | zero => intro d ri hf; omega
  | succ n ih =>
    intro d ri hf hs hri d2 r2 heq
    by_cases hg : d.readState = .VertexData ∧ ri + 4 ≤ c.length
    · have hglen : ri + 4 ≤ c.length := hg.2
      cases hvb : d.vertexBufferSize with
      | some m =>
        rw [vertexLoopF_succ_some hvb, if_pos hg] at heq
        by_cases hfull : m ≤ d.vertexWriteIndex
        · rw [if_pos hfull] at heq
          injection heq with h1 h2
          subst h1; subst h2
          exact ⟨hri, Or.inr rfl⟩
        · rw [if_neg hfull] at heq
          refine ih _ (ri + 4) (by omega) ?_ (by omega) d2 r2 heq
          exact hs
      | none =>
        rw [vertexLoopF_succ_none hvb, if_pos hg] at heq
        refine ih _ (ri + 4) (by omega) ?_ (by omega) d2 r2 heq
        exact hs
    · simp only [vertexLoopF] at heq
      rw [if_neg hg] at heq
      injection heq with h1 h2
      subst h1; subst h2
      refine ⟨hri, Or.inl ⟨hs, ?_⟩⟩
      rcases not_and_or.mp hg with h | h
      · exact absurd hs h
      · omega

theorem vertexLoop_post {c : Chunk} {d : Decoder} {ri : Nat}
    (hs : d.readState = .VertexData) (hri : ri ≤ c.length) :
    ∀ d2 r2, vertexLoop c d ri = (d2, r2) →
      r2 ≤ c.length ∧
      ((d2.readState = .VertexData ∧ c.length < r2 + 4) ∨
        d2.readState = .IndexData) :=
  vertexLoopF_post c (c.length + 1) d ri (by omega) hs hri

/-! ### Index loop lemmas -/

theorem indexLoopF_succ_some {c : Chunk} {fuel : Nat} {d : Decoder} {ri w n : Nat}
    (hw : d.indexSize = some w) (hn : d.indexCount = some n) :
    indexLoopF c (fuel + 1) d ri =
      if d.readState = .IndexData ∧ ri + w ≤ c.length ∧ d.indicesWriteIndex < n then
        if ri + (if w = 1 then 1 else if w = 2 then 2 else 4) ≤ c.length then
          indexLoopF c fuel
            (if n ≤ d.indicesWriteIndex + 1 then
              { d with readState := .Done,
                       indices := d.indices.set d.indicesWriteIndex
                         (if w = 1 then readU8 c ri
                          else if w = 2 then readU16 c ri else readU32 c ri),
                       indicesWriteIndex := d.indicesWriteIndex + 1 }
            else
              { d with indices := d.indices.set d.indicesWriteIndex
                         (if w = 1 then readU8 c ri
                          else if w = 2 then readU16 c ri else readU32 c ri),
                       indicesWriteIndex := d.indicesWriteIndex + 1 }) (ri + w)
        else .error .rangeError
      else .ok (d, ri) := by
  simp only [indexLoopF]
  rw [hw, hn]

theorem indexLoopF_undef {c : Chunk} {fuel : Nat} {d : Decoder} {ri : Nat}
    (h : d.indexSize = none ∨ d.indexCount = none) :
    indexLoopF c fuel d ri = .ok (d, ri) := by
  cases fuel with
  | zero => rfl
  | succ n =>
    simp only [indexLoopF]
    rcases h with h | h
    · rw [h]
    · rw [h]
      cases d.indexSize <;> rfl

theorem indexLoopF_notID {c : Chunk} (fuel : Nat) {d : Decoder} {ri : Nat}
    (h : d.readState ≠ .IndexData) : indexLoopF c fuel d ri = .ok (d, ri) := by
  cases fuel with
  | zero => rfl
  | succ n =>
    cases hw : d.indexSize with
    | none => exact indexLoopF_undef (Or.inl hw)
    | some w =>
      cases hn : d.indexCount with
      | none => exact indexLoopF_undef (Or.inr hn)
      | some m =>
        rw [indexLoopF_succ_some hw hn]
        have hng : ¬(d.readState = ModelReadState.IndexData ∧ ri + w ≤ c.length ∧
            d.indicesWriteIndex < m) := fun hc => h hc.1
        rw [if_neg hng]

theorem indexLoop_notID {c : Chunk} {d : Decoder} {ri : Nat}
    (h : d.readState ≠ .IndexData) : indexLoop c d ri = .ok (d, ri) :=
  indexLoopF_notID _ h

theorem indexLoopF_pres (c : Chunk) :
    ∀ (fuel : Nat) (d : Decoder) (ri : Nat) (d2 : Decoder) (r2 : Nat),
      indexLoopF c fuel d ri = .ok (d2, r2) →
      hdrPart d2 = hdrPart d ∧ d2.vertices = d.vertices ∧
      d2.vertexWriteIndex = d.vertexWriteIndex := by
  intro fuel
  induction fuel with
  | zero =>
    intro d ri d2 r2 heq
    injection heq with h1
    injection h1 with h1 h2
    subst h1
    exact ⟨rfl, rfl, rfl⟩
  | succ n ih =>
    intro d ri d2 r2 heq
    cases hw : d.indexSize with
    | none =>
      rw [indexLoopF_undef (Or.inl hw)] at heq
      injection heq with h1
      injection h1 with h1 h2
      subst h1
      exact ⟨rfl, rfl, rfl⟩
    | some w =>
      cases hn : d.indexCount with
      | none =>
        rw [indexLoopF_undef (Or.inr hn)] at heq
        injection heq with h1
        injection h1 with h1 h2
        subst h1
        exact ⟨rfl, rfl, rfl⟩
      | some m =>
        rw [indexLoopF_succ_some hw hn] at heq
        by_cases hg : d.readState = .IndexData ∧ ri + w ≤ c.length ∧
            d.indicesWriteIndex < m
        · rw [if_pos hg] at heq
          by_cases hb : ri + (if w = 1 then 1 else if w = 2 then 2 else 4) ≤ c.length
          · rw [if_pos hb] at heq
            by_cases hdone : m ≤ d.indicesWriteIndex + 1
            · rw [if_pos hdone] at heq
              have hres := ih _ _ _ _ heq
              exact hres
            · rw [if_neg hdone] at heq
              have hres := ih _ _ _ _ heq
              exact hres
          · rw [if_neg hb] at heq
            exact absurd heq (by simp)
        · rw [if_neg hg] at heq
          injection heq with h1
          injection h1 with h1 h2
          subst h1
          exact ⟨rfl, rfl, rfl⟩

theorem indexLoopF_post (c : Chunk) :
    ∀ (fuel : Nat) (d : Decoder) (ri w n : Nat),
      d.indexSize = some w → d.indexCount = some n →
      n - d.indicesWriteIndex < fuel → d.readState = .IndexData → ri ≤ c.length →
      ∀ d2 r2, indexLoopF c fuel d ri = .ok (d2, r2) →
        r2 ≤ c.length ∧
        ((d2.readState = .IndexData ∧
            (d2.indicesWriteIndex < n → c.length < r2 + w)) ∨
          d2.readState = .Done) := by
  intro fuel
  induction fuel with
  | zero => intro d ri w n hw hn hf; omega
  | succ k ih =>
    intro d ri w n hw hn hf hs hri d2 r2 heq
    rw [indexLoopF_succ_some hw hn] at heq
    by_cases hg : d.readState = .IndexData ∧ ri + w ≤ c.length ∧
        d.indicesWriteIndex < n
    · have hglen : ri + w ≤ c.length := hg.2.1
      have hglt : d.indicesWriteIndex < n := hg.2.2
      rw [if_pos hg] at heq
      by_cases hb : ri + (if w = 1 then 1 else if w = 2 then 2 else 4) ≤ c.length
      · rw [if_pos hb] at heq
        by_cases hdone : n ≤ d.indicesWriteIndex + 1
        · rw [if_pos hdone] at heq
          rw [indexLoopF_notID k (by intro hcon; exact absurd hcon (by simp))] at heq
          injection heq with h1
          injection h1 with h1 h2
          subst h1; subst h2
          exact ⟨by omega, Or.inr rfl⟩
        · rw [if_neg hdone] at heq
          exact ih _ (ri + w) w n (by exact hw) (by exact hn)
            (by show n - (d.indicesWriteIndex + 1) < k; omega)
            (by exact hs) (by omega) d2 r2 heq
      · rw [if_neg hb] at heq
        exact absurd heq (by simp)
    · rw [if_neg hg] at heq
      injection heq with h1
      injection h1 with h1 h2
      subst h1; subst h2
      refine ⟨hri, Or.inl ⟨hs, fun hlt => ?_⟩⟩
      rcases not_and_or.mp hg with h | h
      · exact absurd hs h
      · rcases not_and_or.mp h with h2 | h2
        · omega
        · exact absurd hlt h2

theorem indexLoop_post {c : Chunk} {d : Decoder} {ri w n : Nat}
    (hw : d.indexSize = some w) (hn : d.indexCount = some n)
    (hs : d.readState = .IndexData) (hri : ri ≤ c.length) :
    ∀ d2 r2, indexLoop c d ri = .ok (d2, r2) →
      r2 ≤ c.length ∧
      ((d2.readState = .IndexData ∧
          (d2.indicesWriteIndex < n → c.length < r2 + w)) ∨
        d2.readState = .Done) := by
  intro d2 r2 heq
  unfold indexLoop at heq
  rw [hn] at heq
  simp only [Option.getD_some] at heq
  exact indexLoopF_post c (n + 1) d ri w n hw hn (by omega) hs hri d2 r2 heq

/-! ### Post-pass invariant lemmas -/

theorem post_is {d : Decoder} {rem : Nat} (hs : d.readState = .IndexSize)
    (h : rem = 0) : post d rem := by
  unfold post
  rw [hs]
  exact h

theorem post_sf {d : Decoder} {rem : Nat} (hs : d.readState = .ScaleFactor)
    (h1 : d.indexSize.isSome) (h2 : rem < 8) : post d rem := by
  unfold post
  rw [hs]
  exact ⟨h1, h2⟩

theorem post_mo {d : Decoder} {rem : Nat} (hs : d.readState = .ModelOffset)
    (h1 : d.indexSize.isSome) (h2 : rem < 12) : post d rem := by
  unfold post
  rw [hs]
  exact ⟨h1, h2⟩

theorem post_vc {d : Decoder} {rem : Nat} (hs : d.readState = .VertexCount)
    (h1 : d.indexSize.isSome) (h2 : rem < 4) : post d rem := by
  unfold post
  rw [hs]
  exact ⟨h1, h2⟩

theorem post_ic {d : Decoder} {rem : Nat} (hs : d.readState = .IndexCount)
    (h1 : d.indexSize.isSome) (h2 : d.vertexBufferSize.isSome) (h3 : rem < 4) :
    post d rem := by
  unfold post
  rw [hs]
  exact ⟨h1, h2, h3⟩

theorem post_vd {d : Decoder} {rem : Nat} (hs : d.readState = .VertexData)
    (h1 : d.indexSize.isSome) (h2 : d.vertexBufferSize.isSome)
    (h3 : d.indexCount.isSome) (h4 : rem < 4) : post d rem := by
  unfold post
  rw [hs]
  exact ⟨h1, h2, h3, h4⟩

theorem post_id {d : Decoder} {rem : Nat} (hs : d.readState = .IndexData)
    (h : ∃ w n, d.indexSize = some w ∧ d.indexCount = some n ∧
      (d.indicesWriteIndex < n → rem < w)) : post d rem := by
  unfold post
  rw [hs]
  exact h

theorem post_done {d : Decoder} {rem : Nat} (hs : d.readState = .Done) :
    post d rem := by
  unfold post
  rw [hs]
  exact trivial

/-! ### Loop composition lemmas -/

theorem hdrPart_eq_iff {a b : Decoder} :
    hdrPart a = hdrPart b ↔
      a.indexSize = b.indexSize ∧ a.hasColor = b.hasColor ∧
      a.hasNormal = b.hasNormal ∧ a.hasUV = b.hasUV ∧ a.scaleBits = b.scaleBits ∧
      a.offsetBits = b.offsetBits ∧ a.vertexBufferSize = b.vertexBufferSize ∧
      a.indexCount = b.indexCount ∧ a.carry = b.carry := by
  simp [hdrPart, Prod.ext_iff]

theorem vertexLoop_pres {c : Chunk} {d : Decoder} {ri : Nat} {d1 : Decoder} {r1 : Nat}
    (heq : vertexLoop c d ri = (d1, r1)) :
    hdrPart d1 = hdrPart d ∧ d1.indices = d.indices ∧
    d1.indicesWriteIndex = d.indicesWriteIndex := by
  have hp := vertexLoopF_pres c (c.length + 1) d ri
  rw [show vertexLoopF c (c.length + 1) d ri = (d1, r1) from heq] at hp
  exact hp

theorem indexLoop_pres {c : Chunk} {d : Decoder} {ri : Nat} {d2 : Decoder} {r2 : Nat}
    (heq : indexLoop c d ri = .ok (d2, r2)) :
    hdrPart d2 = hdrPart d ∧ d2.vertices = d.vertices ∧
    d2.vertexWriteIndex = d.vertexWriteIndex :=
  indexLoopF_pres c (d.indexCount.getD 0 + 1) d ri d2 r2 heq

theorem runLoops_other {c : Chunk} {d : Decoder} {ri : Nat}
    (h1 : d.readState ≠ .VertexData) (h2 : d.readState ≠ .IndexData) :
    runLoops c d ri = .ok (d, ri) := by
  unfold runLoops
  rw [vertexLoop_notVD h1]
  exact indexLoop_notID h2

theorem runLoops_pres {c : Chunk} {d : Decoder} {ri : Nat} {d2 : Decoder} {r2 : Nat}
    (heq : runLoops c d ri = .ok (d2, r2)) : hdrPart d2 = hdrPart d := by
  unfold runLoops at heq
  rcases hv : vertexLoop c d ri with ⟨d1, r1⟩
  rw [hv] at heq
  have heq1 : indexLoop c d1 r1 = .ok (d2, r2) := heq
  exact (indexLoop_pres heq1).1.trans (vertexLoop_pres hv).1

theorem post_of_indexLoop_case {c : Chunk} {d2 : Decoder} {r2 w n : Nat}
    (hr2 : r2 ≤ c.length)
    (hw2 : d2.indexSize = some w) (hn2 : d2.indexCount = some n)
    (hcase :
      (d2.readState = .IndexData ∧
        (d2.indicesWriteIndex < n → c.length < r2 + w)) ∨
      d2.readState = .Done) :
    post d2 (c.length - r2) := by
  rcases hcase with ⟨hid, hb⟩ | hdone
  · exact post_id hid ⟨w, n, hw2, hn2, fun hlt => by have := hb hlt; omega⟩
  · exact post_done hdone

theorem runLoops_id_post {c : Chunk} {d : Decoder} {ri w n : Nat}
    (hs : d.readState = .IndexData) (hw : d.indexSize = some w)
    (hn : d.indexCount = some n) (hri : ri ≤ c.length) :
    ∀ d2 r2, runLoops c d ri = .ok (d2, r2) →
      r2 ≤ c.length ∧ post d2 (c.length - r2) := by
  intro d2 r2 heq
  unfold runLoops at heq
  rw [vertexLoop_notVD (by simp [hs])] at heq
  have heq1 : indexLoop c d ri = .ok (d2, r2) := heq
  obtain ⟨hpres, -, -⟩ := indexLoop_pres heq1
  obtain ⟨eIS, -, -, -, -, -, -, eIC, -⟩ := hdrPart_eq_iff.mp hpres
  obtain ⟨hr2, hcase⟩ := indexLoop_post hw hn hs hri d2 r2 heq1
  exact ⟨hr2, post_of_indexLoop_case hr2 (eIS.trans hw) (eIC.trans hn) hcase⟩

theorem runLoops_vd_post {c : Chunk} {d : Decoder} {ri : Nat}
    (hs : d.readState = .VertexData) (hw : d.indexSize.isSome)
    (hvb : d.vertexBufferSize.isSome) (hn : d.indexCount.isSome)
    (hri : ri ≤ c.length) :
    ∀ d2 r2, runLoops c d ri = .ok (d2, r2) →
      r2 ≤ c.length ∧ post d2 (c.length - r2) := by
  intro d2 r2 heq
  unfold runLoops at heq
  rcases hv : vertexLoop c d ri with ⟨d1, r1⟩
  rw [hv] at heq
  have heq1 : indexLoop c d1 r1 = .ok (d2, r2) := heq
  obtain ⟨hpres1, -, -⟩ := vertexLoop_pres hv
  obtain ⟨eIS, -, -, -, -, -, eVB, eIC, -⟩ := hdrPart_eq_iff.mp hpres1
  obtain ⟨hr1, hcase1⟩ := vertexLoop_post hs hri d1 r1 hv
  rcases hcase1 with ⟨hvd, hlt⟩ | hid
  · rw [indexLoop_notID (by simp [hvd])] at heq1
    injection heq1 with h1
    injection h1 with h1 h2
    subst h1; subst h2
    refine ⟨hr1, post_vd hvd (eIS ▸ hw) (eVB ▸ hvb) (eIC ▸ hn) (by omega)⟩
  · obtain ⟨w, hw1⟩ := Option.isSome_iff_exists.mp hw
    obtain ⟨n, hn1⟩ := Option.isSome_iff_exists.mp hn
    obtain ⟨hpres2, -, -⟩ := indexLoop_pres heq1
    obtain ⟨eIS2, -, -, -, -, -, -, eIC2, -⟩ := hdrPart_eq_iff.mp hpres2
    obtain ⟨hr2, hcase2⟩ :=
      indexLoop_post (eIS.trans hw1) (eIC.trans hn1) hid hr1 d2 r2 heq1
    exact ⟨hr2, post_of_indexLoop_case hr2 (eIS2.trans (eIS.trans hw1))
      (eIC2.trans (eIC.trans hn1)) hcase2⟩

/-! ### Header-tail pipeline lemmas -/

theorem stageComponents_err {c : Chunk} {d : Decoder} {ri : Nat}
    (h1 : d.readState = .VertexComponents) (h2 : 1 ≤ c.length)
    (h3 : ¬ ri + 1 ≤ c.length) :
    stageComponents c d ri = .error .rangeError := by
  simp only [stageComponents, if_pos (And.intro h1 h2), if_neg h3]

theorem runTail3_skip {c : Chunk} {d : Decoder} {ri : Nat}
    (h1 : d.readState ≠ .ScaleFactor) (h2 : d.readState ≠ .ModelOffset)
    (h3 : d.readState ≠ .VertexCount) (h4 : d.readState ≠ .IndexCount) :
    runTail3 c d ri = runLoops c d ri := by
  unfold runTail3
  rw [stageScale_ne h1]
  show runTail4 c d ri = _
  unfold runTail4
  rw [stageOffset_ne h2]
  show runTail5 c d ri = _
  unfold runTail5
  rw [stageVertexCount_ne h3]
  show runTail6 c d ri = _
  unfold runTail6
  rw [stageIndexCount_ne h4]

theorem runTail6_pass {c : Chunk} {d : Decoder} {ri : Nat}
    (h1 : d.readState ≠ .IndexCount) (h2 : d.readState ≠ .VertexData)
    (h3 : d.readState ≠ .IndexData) :
    runTail6 c d ri = .ok (d, ri) := by
  unfold runTail6
  rw [stageIndexCount_ne h1]
  exact runLoops_other h2 h3

theorem runTail5_pass {c : Chunk} {d : Decoder} {ri : Nat}
    (h0 : d.readState ≠ .VertexCount) (h1 : d.readState ≠ .IndexCount)
    (h2 : d.readState ≠ .VertexData) (h3 : d.readState ≠ .IndexData) :
    runTail5 c d ri = .ok (d, ri) := by
  unfold runTail5
  rw [stageVertexCount_ne h0]
  exact runTail6_pass h1 h2 h3

theorem runTail4_pass {c : Chunk} {d : Decoder} {ri : Nat}
    (hm : d.readState ≠ .ModelOffset) (h0 : d.readState ≠ .VertexCount)
    (h1 : d.readState ≠ .IndexCount) (h2 : d.readState ≠ .VertexData)
    (h3 : d.readState ≠ .IndexData) :
    runTail4 c d ri = .ok (d, ri) := by
  unfold runTail4
  rw [stageOffset_ne hm]
  exact runTail5_pass h0 h1 h2 h3

theorem runTail6_post {c : Chunk} {d : Decoder} {ri : Nat}
    (hri : ri ≤ c.length) (hs : d.readState = .IndexCount)
    (hw : d.indexSize.isSome) (hvb : d.vertexBufferSize.isSome) :
    ∀ d2 r2, runTail6 c d ri = .ok (d2, r2) →
      r2 ≤ c.length ∧ post d2 (c.length - r2) := by
  intro d2 r2 heq
  unfold runTail6 at heq
  by_cases hg : ri + 4 ≤ c.length
  · rw [stageIndexCount_pos hs hg] at heq
    have heq1 : runLoops c
        { d with readState := .VertexData, indexCount := some (readU32 c ri),
                 indices := List.replicate (readU32 c ri) 0 } (ri + 4) =
        .ok (d2, r2) := heq
    exact runLoops_vd_post rfl (by exact hw) (by exact hvb) (by simp)
      (by omega) d2 r2 heq1
  · rw [stageIndexCount_neg (fun hc => hg hc.2)] at heq
    have heq1 : runLoops c d ri = .ok (d2, r2) := heq
    rw [runLoops_other (by simp [hs]) (by simp [hs])] at heq1
    injection heq1 with h1
    injection h1 with h1 h2
    subst h1; subst h2
    exact ⟨hri, post_ic hs hw hvb (by omega)⟩

theorem runTail5_post {c : Chunk} {d : Decoder} {ri : Nat}
    (hri : ri ≤ c.length) (hs : d.readState = .VertexCount)
    (hw : d.indexSize.isSome) :
    ∀ d2 r2, runTail5 c d ri = .ok (d2, r2) →
      r2 ≤ c.length ∧ post d2 (c.length - r2) := by
  intro d2 r2 heq
  unfold runTail5 at heq
  by_cases hg : ri + 4 ≤ c.length
  · rw [stageVertexCount_pos hs hg] at heq
    have heq1 : runTail6 c
        { d with readState := .IndexCount, vertexBufferSize := some (readU32 c ri),
                 vertices := List.replicate (readU32 c ri) 0 } (ri + 4) =
        .ok (d2, r2) := heq
    exact runTail6_post (by omega) rfl (by exact hw) (by simp) d2 r2 heq1
  · rw [stageVertexCount_neg (fun hc => hg hc.2)] at heq
    have heq1 : runTail6 c d ri = .ok (d2, r2) := heq
    rw [runTail6_pass (by simp [hs]) (by simp [hs]) (by simp [hs])] at heq1
    injection heq1 with h1
    injection h1 with h1 h2
    subst h1; subst h2
    exact ⟨hri, post_vc hs hw (by omega)⟩

theorem runTail4_post {c : Chunk} {d : Decoder} {ri : Nat}
    (hri : ri ≤ c.length) (hs : d.readState = .ModelOffset)
    (hw : d.indexSize.isSome) :
    ∀ d2 r2, runTail4 c d ri = .ok (d2, r2) →
      r2 ≤ c.length ∧ post d2 (c.length - r2) := by
  intro d2 r2 heq
  unfold runTail4 at heq
  by_cases hg : ri + 12 ≤ c.length
  · rw [stageOffset_pos hs hg] at heq
    have heq1 : runTail5 c
        { d with readState := .VertexCount,
                 offsetBits := (readU32 c ri, readU32 c (ri + 4), readU32 c (ri + 8)) }
        (ri + 12) = .ok (d2, r2) := heq
    exact runTail5_post (by omega) rfl (by exact hw) d2 r2 heq1
  · rw [stageOffset_neg (fun hc => hg hc.2)] at heq
    have heq1 : runTail5 c d ri = .ok (d2, r2) := heq
    rw [runTail5_pass (by simp [hs]) (by simp [hs]) (by simp [hs]) (by simp [hs])] at heq1
    injection heq1 with h1
    injection h1 with h1 h2
    subst h1; subst h2
    exact ⟨hri, post_mo hs hw (by omega)⟩

theorem runTail3_post {c : Chunk} {d : Decoder} {ri : Nat}
    (hri : ri ≤ c.length) (hs : d.readState = .ScaleFactor)
    (hw : d.indexSize.isSome) :
    ∀ d2 r2, runTail3 c d ri = .ok (d2, r2) →
      r2 ≤ c.length ∧ post d2 (c.length - r2) := by
  intro d2 r2 heq
  unfold runTail3 at heq
  by_cases hg : ri + 8 ≤ c.length
  · rw [stageScale_pos hs hg] at heq
    have heq1 : runTail4 c
        { d with readState := .ModelOffset, scaleBits := readU64 c ri } (ri + 8) =
        .ok (d2, r2) := heq
    exact runTail4_post (by omega) rfl (by exact hw) d2 r2 heq1
  · rw [stageScale_neg (fun hc => hg hc.2)] at heq
    have heq1 : runTail4 c d ri = .ok (d2, r2) := heq
    rw [runTail4_pass (by simp [hs]) (by simp [hs]) (by simp [hs]) (by simp [hs])
      (by simp [hs])] at heq1
    injection heq1 with h1
    injection h1 with h1 h2
    subst h1; subst h2
    exact ⟨hri, post_sf hs hw (by omega)⟩

theorem runTail2_vc_post {c : Chunk} {d : Decoder} {ri : Nat}
    (hri : ri ≤ c.length) (hs : d.readState = .VertexComponents)
    (hlen : 1 ≤ c.length) (hw : d.indexSize.isSome) :
    ∀ d2 r2, runTail2 c d ri = .ok (d2, r2) →
      r2 ≤ c.length ∧ post d2 (c.length - r2) := by
  intro d2 r2 heq
  unfold runTail2 at heq
  by_cases hb : ri + 1 ≤ c.length
  · rw [stageComponents_ok hs hlen hb] at heq
    have heq1 : runTail3 c
        { d with readState := .ScaleFactor,
                 hasColor := some (readU8 c ri &&& 4 != 0),
                 hasNormal := some (readU8 c ri &&& 2 != 0),
                 hasUV := some (readU8 c ri &&& 1 != 0) } (ri + 1) =
        .ok (d2, r2) := heq
    exact runTail3_post (by omega) rfl (by exact hw) d2 r2 heq1
  · rw [stageComponents_err hs hlen hb] at heq
    exact absurd heq (by simp)

/-! ### Per-pass preservation of the invariant -/

theorem inv_of_final {c : Chunk} {d9 : Decoder} {r9 : Nat}
    (hpost : post d9 (c.length - r9)) (hr : r9 ≤ c.length) :
    inv { d9 with carry := if r9 < c.length then c.drop r9 else [] } := by
  unfold inv
  have hlen : ({ d9 with carry := if r9 < c.length then c.drop r9 else [] } :
      Decoder).carry.length = c.length - r9 := by
    by_cases h : r9 < c.length
    · simp [h, List.length_drop]
    · simp [h]
      omega
  rw [hlen]
  exact hpost

/-! ### Invariant elimination lemmas -/

theorem inv_elim_is {d : Decoder} (hst : d.readState = .IndexSize) (hinv : inv d) :
    d.carry.length = 0 := by
  unfold inv post at hinv
  rw [hst] at hinv
  exact hinv

theorem inv_elim_vc {d : Decoder} (hst : d.readState = .VertexComponents)
    (hinv : inv d) : False := by
  unfold inv post at hinv
  rw [hst] at hinv
  exact hinv

theorem inv_elim_sf {d : Decoder} (hst : d.readState = .ScaleFactor) (hinv : inv d) :
    d.indexSize.isSome ∧ d.carry.length < 8 := by
  unfold inv post at hinv
  rw [hst] at hinv
  exact hinv

theorem inv_elim_mo {d : Decoder} (hst : d.readState = .ModelOffset) (hinv : inv d) :
    d.indexSize.isSome ∧ d.carry.length < 12 := by
  unfold inv post at hinv
  rw [hst] at hinv
  exact hinv

theorem inv_elim_vcnt {d : Decoder} (hst : d.readState = .VertexCount)
    (hinv : inv d) : d.indexSize.isSome ∧ d.carry.length < 4 := by
  unfold inv post at hinv
  rw [hst] at hinv
  exact hinv

theorem inv_elim_icnt {d : Decoder} (hst : d.readState = .IndexCount)
    (hinv : inv d) :
    d.indexSize.isSome ∧ d.vertexBufferSize.isSome ∧ d.carry.length < 4 := by
  unfold inv post at hinv
  rw [hst] at hinv
  exact hinv

theorem inv_elim_vd {d : Decoder} (hst : d.readState = .VertexData) (hinv : inv d) :
    d.indexSize.isSome ∧ d.vertexBufferSize.isSome ∧ d.indexCount.isSome ∧
    d.carry.length < 4 := by
  unfold inv post at hinv
  rw [hst] at hinv
  exact hinv

theorem inv_elim_id {d : Decoder} (hst : d.readState = .IndexData) (hinv : inv d) :
    ∃ w n, d.indexSize = some w ∧ d.indexCount = some n ∧
      (d.indicesWriteIndex < n → d.carry.length < w) := by
  unfold inv post at hinv
  rw [hst] at hinv
  exact hinv

/-! ### The invariant is preserved by every pass and holds for every
reachable resting state -/

theorem appendChunks_post {d0 : Decoder} {chunk : Chunk} (hinv : inv d0) :
    ∀ d2, appendChunks d0 chunk = .ok d2 → inv d2 := by
  intro d2 heq
  simp only [appendChunks] at heq
  cases hst : d0.readState with
  | IndexSize =>
    have hds : ({ d0 with carry := [] } : Decoder).readState =
        ModelReadState.IndexSize := hst
    by_cases hl : 1 ≤ (d0.carry ++ chunk).length
    · rw [stageIndexSize_pos hds hl] at heq
      split at heq
      · exact absurd heq (by simp)
      next d9 r9 hrun =>
        injection heq with h
        subst h
        have hrunA : runTail2 (d0.carry ++ chunk)
            { d0 with carry := [],
                      readState := .VertexComponents,
                      indexSize := some (readU8 (d0.carry ++ chunk) 0) } 1 =
            .ok (d9, r9) := hrun
        obtain ⟨hr9, hp⟩ := runTail2_vc_post (by omega) rfl hl (by simp) d9 r9 hrunA
        exact inv_of_final hp hr9
    · rw [stageIndexSize_neg (fun hc => hl hc.2)] at heq
      split at heq
      · exact absurd heq (by simp)
      next d9 r9 hrun =>
        injection heq with h
        subst h
        have hrunA : runTail2 (d0.carry ++ chunk) { d0 with carry := [] } 0 =
            .ok (d9, r9) := hrun
        rw [runTail2] at hrunA
        rw [stageComponents_ne (by simp [hst])] at hrunA
        have hrunB : runTail3 (d0.carry ++ chunk) { d0 with carry := [] } 0 =
            .ok (d9, r9) := hrunA
        rw [runTail3_skip (by simp [hst]) (by simp [hst]) (by simp [hst])
          (by simp [hst])] at hrunB
        rw [runLoops_other (by simp [hst]) (by simp [hst])] at hrunB
        injection hrunB with h1
        injection h1 with h1 h2
        subst h1; subst h2
        exact inv_of_final (post_is hds (by omega)) (by omega)
  | VertexComponents => exact (inv_elim_vc hst hinv).elim
  | ScaleFactor =>
    obtain ⟨hw, hb⟩ := inv_elim_sf hst hinv
    have hds : ({ d0 with carry := [] } : Decoder).readState =
        ModelReadState.ScaleFactor := hst
    rw [stageIndexSize_ne (by simp [hst])] at heq
    split at heq
    · exact absurd heq (by simp)
    next d9 r9 hrun =>
      injection heq with h
      subst h
      have hrunA : runTail2 (d0.carry ++ chunk) { d0 with carry := [] } 0 =
          .ok (d9, r9) := hrun
      rw [runTail2] at hrunA
      rw [stageComponents_ne (by simp [hst])] at hrunA
      have hrunB : runTail3 (d0.carry ++ chunk) { d0 with carry := [] } 0 =
          .ok (d9, r9) := hrunA
      obtain ⟨hr9, hp⟩ := runTail3_post (by omega) hds (by exact hw) d9 r9 hrunB
      exact inv_of_final hp hr9
  | ModelOffset =>
    obtain ⟨hw, hb⟩ := inv_elim_mo hst hinv
    have hds : ({ d0 with carry := [] } : Decoder).readState =
        ModelReadState.ModelOffset := hst
    rw [stageIndexSize_ne (by simp [hst])] at heq
    split at heq
    · exact absurd heq (by simp)
    next d9 r9 hrun =>
      injection heq with h
      subst h
      have hrunA : runTail2 (d0.carry ++ chunk) { d0 with carry := [] } 0 =
          .ok (d9, r9) := hrun
      rw [runTail2] at hrunA
      rw [stageComponents_ne (by simp [hst])] at hrunA
      have hrunB : runTail3 (d0.carry ++ chunk) { d0 with carry := [] } 0 =
          .ok (d9, r9) := hrunA
      rw [runTail3] at hrunB
      rw [stageScale_ne (by simp [hst])] at hrunB
      have hrunC : runTail4 (d0.carry ++ chunk) { d0 with carry := [] } 0 =
          .ok (d9, r9) := hrunB
      obtain ⟨hr9, hp⟩ := runTail4_post (by omega) hds (by exact hw) d9 r9 hrunC
      exact inv_of_final hp hr9
  | VertexCount =>
    obtain ⟨hw, hb⟩ := inv_elim_vcnt hst hinv
    have hds : ({ d0 with carry := [] } : Decoder).readState =
        ModelReadState.VertexCount := hst
    rw [stageIndexSize_ne (by simp [hst])] at heq
    split at heq
    · exact absurd heq (by simp)
    next d9 r9 hrun =>
      injection heq with h
      subst h
      have hrunA : runTail2 (d0.carry ++ chunk) { d0 with carry := [] } 0 =
          .ok (d9, r9) := hrun
      rw [runTail2] at hrunA
      rw [stageComponents_ne (by simp [hst])] at hrunA
      have hrunB : runTail3 (d0.carry ++ chunk) { d0 with carry := [] } 0 =
          .ok (d9, r9) := hrunA
      rw [runTail3] at hrunB
      rw [stageScale_ne (by simp [hst])] at hrunB
      have hrunC : runTail4 (d0.carry ++ chunk) { d0 with carry := [] } 0 =
          .ok (d9, r9) := hrunB
      rw [runTail4] at hrunC
      rw [stageOffset_ne (by simp [hst])] at hrunC
      have hrunD : runTail5 (d0.carry ++ chunk) { d0 with carry := [] } 0 =
          .ok (d9, r9) := hrunC
      obtain ⟨hr9, hp⟩ := runTail5_post (by omega) hds (by exact hw) d9 r9 hrunD
      exact inv_of_final hp hr9
  | IndexCount =>
    obtain ⟨hw, hvb, hb⟩ := inv_elim_icnt hst hinv
    have hds : ({ d0 with carry := [] } : Decoder).readState =
        ModelReadState.IndexCount := hst
    rw [stageIndexSize_ne (by simp [hst])] at heq
    split at heq
    · exact absurd heq (by simp)
    next d9 r9 hrun =>
      injection heq with h
      subst h
      have hrunA : runTail2 (d0.carry ++ chunk) { d0 with carry := [] } 0 =
          .ok (d9, r9) := hrun
      rw [runTail2] at hrunA
      rw [stageComponents_ne (by simp [hst])] at hrunA
      have hrunB : runTail3 (d0.carry ++ chunk) { d0 with carry := [] } 0 =
          .ok (d9, r9) := hrunA
      rw [runTail3] at hrunB
      rw [stageScale_ne (by simp [hst])] at hrunB
      have hrunC : runTail4 (d0.carry ++ chunk) { d0 with carry := [] } 0 =
          .ok (d9, r9) := hrunB
      rw [runTail4] at hrunC
      rw [stageOffset_ne (by simp [hst])] at hrunC
      have hrunD : runTail5 (d0.carry ++ chunk) { d0 with carry := [] } 0 =
          .ok (d9, r9) := hrunC
      rw [runTail5] at hrunD
      rw [stageVertexCount_ne (by simp [hst])] at hrunD
      have hrunE : runTail6 (d0.carry ++ chunk) { d0 with carry := [] } 0 =
          .ok (d9, r9) := hrunD
      obtain ⟨hr9, hp⟩ := runTail6_post (by omega) hds (by exact hw)
        (by exact hvb) d9 r9 hrunE
      exact inv_of_final hp hr9
  | VertexData =>
    obtain ⟨hw, hvb, hic, hb⟩ := inv_elim_vd hst hinv
    have hds : ({ d0 with carry := [] } : Decoder).readState =
        ModelReadState.VertexData := hst
    rw [stageIndexSize_ne (by simp [hst])] at heq
    split at heq
    · exact absurd heq (by simp)
    next d9 r9 hrun =>
      injection heq with h
      subst h
      have hrunA : runTail2 (d0.carry ++ chunk) { d0 with carry := [] } 0 =
          .ok (d9, r9) := hrun
      rw [runTail2] at hrunA
      rw [stageComponents_ne (by simp [hst])] at hrunA
      have hrunB : runTail3 (d0.carry ++ chunk) { d0 with carry := [] } 0 =
          .ok (d9, r9) := hrunA
      rw [runTail3_skip (by simp [hst]) (by simp [hst]) (by simp [hst])
        (by simp [hst])] at hrunB
      obtain ⟨hr9, hp⟩ := runLoops_vd_post hds (by exact hw) (by exact hvb)
        (by exact hic) (by omega) d9 r9 hrunB
      exact inv_of_final hp hr9
  | IndexData =>
    obtain ⟨w, n, hw, hn, himp⟩ := inv_elim_id hst hinv
    have hds : ({ d0 with carry := [] } : Decoder).readState =
        ModelReadState.IndexData := hst
    rw [stageIndexSize_ne (by simp [hst])] at heq
    split at heq
    · exact absurd heq (by simp)
    next d9 r9 hrun =>
      injection heq with h
      subst h
      have hrunA : runTail2 (d0.carry ++ chunk) { d0 with carry := [] } 0 =
          .ok (d9, r9) := hrun
      rw [runTail2] at hrunA
      rw [stageComponents_ne (by simp [hst])] at hrunA
      have hrunB : runTail3 (d0.carry ++ chunk) { d0 with carry := [] } 0 =
          .ok (d9, r9) := hrunA
      rw [runTail3_skip (by simp [hst]) (by simp [hst]) (by simp [hst])
        (by simp [hst])] at hrunB
      obtain ⟨hr9, hp⟩ := runLoops_id_post hds (by exact hw) (by exact hn)
        (by omega) d9 r9 hrunB
      exact inv_of_final hp hr9
  | Done =>
    have hds : ({ d0 with carry := [] } : Decoder).readState =
        ModelReadState.Done := hst
    rw [stageIndexSize_ne (by simp [hst])] at heq
    split at heq
    · exact absurd heq (by simp)
    next d9 r9 hrun =>
      injection heq with h
      subst h
      have hrunA : runTail2 (d0.carry ++ chunk) { d0 with carry := [] } 0 =
          .ok (d9, r9) := hrun
      rw [runTail2] at hrunA
      rw [stageComponents_ne (by simp [hst])] at hrunA
      have hrunB : runTail3 (d0.carry ++ chunk) { d0 with carry := [] } 0 =
          .ok (d9, r9) := hrunA
      rw [runTail3_skip (by simp [hst]) (by simp [hst]) (by simp [hst])
        (by simp [hst])] at hrunB
      rw [runLoops_other (by simp [hst]) (by simp [hst])] at hrunB
      injection hrunB with h1
      injection h1 with h1 h2
      subst h1; subst h2
      exact inv_of_final (post_done hds) (by omega)

theorem inv_init : inv initDecoder := post_is rfl rfl

theorem inv_runFrom :
    ∀ (chunks : List Chunk) (d : Decoder), inv d →
      ∀ d2, runFrom d chunks = .ok d2 → inv d2 := by
  intro chunks
  induction chunks with
  | nil =>
    intro d hd d2 heq
    injection heq with h
    subst h
    exact hd
  | cons ch rest ih =>
    intro d hd d2 heq
    unfold runFrom at heq
    rcases ha : appendChunks d ch with e | d1
    · rw [ha] at heq
      exact absurd heq (by simp)
    · rw [ha] at heq
      have heq2 : runFrom d1 rest = .ok d2 := heq
      exact ih d1 (appendChunks_post hd d1 ha) d2 heq2

/-- Every successfully processed chunk sequence leaves the decoder in a
resting state satisfying `inv`. -/
theorem inv_run {chunks : List Chunk} {d : Decoder}
    (h : runDecode chunks = .ok d) : inv d :=
  inv_runFrom chunks initDecoder inv_init d h

/-! ### Empty-chunk and post-Done behavior -/

theorem setCarry_eq {d : Decoder} {l : Chunk} (h : d.carry = l) :
    ({ d with carry := l } : Decoder) = d := by
  cases h
  rfl

theorem vertexLoop_noprogress {c : Chunk} {d : Decoder} {ri : Nat}
    (h : ¬ ri + 4 ≤ c.length) : vertexLoop c d ri = (d, ri) := by
  unfold vertexLoop
  simp only [vertexLoopF]
  rw [if_neg (fun hcc => h hcc.2)]

theorem indexLoop_noprogress {c : Chunk} {d : Decoder} {ri w n : Nat}
    (hw : d.indexSize = some w) (hn : d.indexCount = some n)
    (h : d.indicesWriteIndex < n → ¬ ri + w ≤ c.length) :
    indexLoop c d ri = .ok (d, ri) := by
  unfold indexLoop
  rw [hn]
  simp only [Option.getD_some]
  rw [indexLoopF_succ_some hw hn]
  rw [if_neg (fun hcc => h hcc.2.2 hcc.2.1)]

theorem appendChunks_stuck {d : Decoder}
    (h1 : stageIndexSize d.carry { d with carry := [] } 0 =
      ({ d with carry := [] }, 0))
    (h2 : runTail2 d.carry { d with carry := [] } 0 =
      .ok ({ d with carry := [] }, 0)) :
    appendChunks d [] = .ok d := by
  simp only [appendChunks, List.append_nil]
  simp only [h1]
  rw [h2]
  show Except.ok ({ d with carry := if 0 < d.carry.length then d.carry.drop 0 else [] } : Decoder) = .ok d
  by_cases hc : 0 < d.carry.length
  · rw [if_pos hc, List.drop_zero]
  · rw [if_neg hc]
    rw [setCarry_eq (List.eq_nil_of_length_eq_zero (by omega))]

theorem inv_empty_identity {d : Decoder} (hinv : inv d) :
    appendChunks d [] = .ok d := by
  cases hst : d.readState with
  | IndexSize =>
    have hc : d.carry = [] := List.eq_nil_of_length_eq_zero (inv_elim_is hst hinv)
    refine appendChunks_stuck (stageIndexSize_neg ?_) ?_
    · intro hcc
      rw [hc] at hcc
      simp at hcc
    · rw [runTail2, stageComponents_ne (by simp [hst])]
      show runTail3 d.carry { d with carry := [] } 0 = _
      rw [runTail3_skip (by simp [hst]) (by simp [hst]) (by simp [hst])
        (by simp [hst])]
      exact runLoops_other (by simp [hst]) (by simp [hst])
  | VertexComponents => exact (inv_elim_vc hst hinv).elim
  | ScaleFactor =>
    obtain ⟨hw, hb⟩ := inv_elim_sf hst hinv
    refine appendChunks_stuck (stageIndexSize_ne (by simp [hst])) ?_
    rw [runTail2, stageComponents_ne (by simp [hst])]
    show runTail3 d.carry { d with carry := [] } 0 = _
    rw [runTail3, stageScale_neg (fun hcc => absurd hcc.2 (by omega))]
    show runTail4 d.carry { d with carry := [] } 0 = _
    rw [runTail4, stageOffset_ne (by simp [hst])]
    show runTail5 d.carry { d with carry := [] } 0 = _
    rw [runTail5, stageVertexCount_ne (by simp [hst])]
    show runTail6 d.carry { d with carry := [] } 0 = _
    rw [runTail6, stageIndexCount_ne (by simp [hst])]
    exact runLoops_other (by simp [hst]) (by simp [hst])
  | ModelOffset =>
    obtain ⟨hw, hb⟩ := inv_elim_mo hst hinv
    refine appendChunks_stuck (stageIndexSize_ne (by simp [hst])) ?_
    rw [runTail2, stageComponents_ne (by simp [hst])]
    show runTail3 d.carry { d with carry := [] } 0 = _
    rw [runTail3, stageScale_ne (by simp [hst])]
    show runTail4 d.carry { d with carry := [] } 0 = _
    rw [runTail4, stageOffset_neg (fun hcc => absurd hcc.2 (by omega))]
    show runTail5 d.carry { d with carry := [] } 0 = _
    rw [runTail5, stageVertexCount_ne (by simp [hst])]
    show runTail6 d.carry { d with carry := [] } 0 = _
    rw [runTail6, stageIndexCount_ne (by simp [hst])]
    exact runLoops_other (by simp [hst]) (by simp [hst])
  | VertexCount =>
    obtain ⟨hw, hb⟩ := inv_elim_vcnt hst hinv
    refine appendChunks_stuck (stageIndexSize_ne (by simp [hst])) ?_
    rw [runTail2, stageComponents_ne (by simp [hst])]
    show runTail3 d.carry { d with carry := [] } 0 = _
    rw [runTail3, stageScale_ne (by simp [hst])]
    show runTail4 d.carry { d with carry := [] } 0 = _
    rw [runTail4, stageOffset_ne (by simp [hst])]
    show runTail5 d.carry { d with carry := [] } 0 = _
    rw [runTail5, stageVertexCount_neg (fun hcc => absurd hcc.2 (by omega))]
    show runTail6 d.carry { d with carry := [] } 0 = _
    rw [runTail6, stageIndexCount_ne (by simp [hst])]
    exact runLoops_other (by simp [hst]) (by simp [hst])
  | IndexCount =>
    obtain ⟨hw, hvb, hb⟩ := inv_elim_icnt hst hinv
    refine appendChunks_stuck (stageIndexSize_ne (by simp [hst])) ?_
    rw [runTail2, stageComponents_ne (by simp [hst])]
    show runTail3 d.carry { d with carry := [] } 0 = _
    rw [runTail3, stageScale_ne (by simp [hst])]
    show runTail4 d.carry { d with carry := [] } 0 = _
    rw [runTail4, stageOffset_ne (by simp [hst])]
    show runTail5 d.carry { d with carry := [] } 0 = _
    rw [runTail5, stageVertexCount_ne (by simp [hst])]
    show runTail6 d.carry { d with carry := [] } 0 = _
    rw [runTail6, stageIndexCount_neg (fun hcc => absurd hcc.2 (by omega))]
    exact runLoops_other (by simp [hst]) (by simp [hst])
  | VertexData =>
    obtain ⟨hw, hvb, hic, hb⟩ := inv_elim_vd hst hinv
    refine appendChunks_stuck (stageIndexSize_ne (by simp [hst])) ?_
    rw [runTail2, stageComponents_ne (by simp [hst])]
    show runTail3 d.carry { d with carry := [] } 0 = _
    rw [runTail3_skip (by simp [hst]) (by simp [hst]) (by simp [hst])
      (by simp [hst])]
    unfold runLoops
    rw [vertexLoop_noprogress (by omega)]
    exact indexLoop_notID (by simp [hst])
  | IndexData =>
    obtain ⟨w, n, hw, hn, himp⟩ := inv_elim_id hst hinv
    refine appendChunks_stuck (stageIndexSize_ne (by simp [hst])) ?_
    rw [runTail2, stageComponents_ne (by simp [hst])]
    show runTail3 d.carry { d with carry := [] } 0 = _
    rw [runTail3_skip (by simp [hst]) (by simp [hst]) (by simp [hst])
      (by simp [hst])]
    unfold runLoops
    rw [vertexLoop_notVD (by simp [hst])]
    exact indexLoop_noprogress (by exact hw) (by exact hn)
      (fun hlt => by have := himp hlt; omega)
  | Done =>
    refine appendChunks_stuck (stageIndexSize_ne (by simp [hst])) ?_
    rw [runTail2, stageComponents_ne (by simp [hst])]
    show runTail3 d.carry { d with carry := [] } 0 = _
    rw [runTail3_skip (by simp [hst]) (by simp [hst]) (by simp [hst])
      (by simp [hst])]
    exact runLoops_other (by simp [hst]) (by simp [hst])

/-! ### Header pipeline equation -/

theorem runTail2_header {c : Chunk} (h30 : 30 ≤ c.length) :
    runTail2 c { initDecoder with carry := [],
                                  readState := .VertexComponents,
                                  indexSize := some (readU8 c 0) } 1 =
    runLoops c (headerResult c) 30 := by
  rw [runTail2, stageComponents_ok rfl (by omega) (by omega)]
  show runTail3 c _ _ = _
  rw [runTail3, stageScale_pos rfl (by omega)]
  show runTail4 c _ _ = _
  rw [runTail4, stageOffset_pos rfl (by omega)]
  show runTail5 c _ _ = _
  rw [runTail5, stageVertexCount_pos rfl (by omega)]
  show runTail6 c _ _ = _
  rw [runTail6, stageIndexCount_pos rfl (by omega)]
  rfl

theorem appendChunks_header {c : Chunk} (h30 : 30 ≤ c.length) {d : Decoder}
    (h : appendChunks initDecoder c = .ok d) :
    ∃ d9 r9, runLoops c (headerResult c) 30 = .ok (d9, r9) ∧
      d = { d9 with carry := if r9 < c.length then c.drop r9 else [] } := by
  have his : ({ initDecoder with carry := [] } : Decoder).readState =
      .IndexSize := rfl
  simp only [appendChunks] at h
  rw [show initDecoder.carry ++ c = c from by simp [initDecoder]] at h
  rw [stageIndexSize_pos his (by omega)] at h
  split at h
  · exact absurd h (by simp)
  next d9 r9 hrun =>
    injection h with hd
    have hA : runTail2 c { initDecoder with carry := [],
                                            readState := .VertexComponents,
                                            indexSize := some (readU8 c 0) } 1 =
        .ok (d9, r9) := hrun
    rw [runTail2_header h30] at hA
    exact ⟨d9, r9, hA, hd.symm⟩

theorem c8_header_general {c : Chunk} (h30 : 30 ≤ c.length) {d : Decoder}
    (h : appendChunks initDecoder c = .ok d) :
    d.indexSize = some (readU8 c 0) ∧
    d.hasUV = some (readU8 c 1 &&& 1 != 0) ∧
    d.hasNormal = some (readU8 c 1 &&& 2 != 0) ∧
    d.hasColor = some (readU8 c 1 &&& 4 != 0) ∧
    d.scaleBits = readU64 c 2 ∧
    d.offsetBits = (readU32 c 10, readU32 c 14, readU32 c 18) ∧
    d.vertexBufferSize = some (readU32 c 22) ∧
    d.indexCount = some (readU32 c 26) ∧
    vertexCountOf d = some ((readU32 c 22 : ℚ) /
      (strideOf (readU8 c 1 &&& 1 != 0) (readU8 c 1 &&& 2 != 0) : ℚ)) := by
  obtain ⟨d9, r9, hrun, hd⟩ := appendChunks_header h30 h
  have hpres := runLoops_pres hrun
  obtain ⟨eIS, eHC, eHN, eHUV, eSB, eOB, eVB, eIC, -⟩ := hdrPart_eq_iff.mp hpres
  subst hd
  refine ⟨eIS, eHUV, eHN, eHC, eSB, eOB, eVB, eIC, ?_⟩
  unfold vertexCountOf
  rw [show ({ d9 with carry := if r9 < c.length then c.drop r9 else [] } :
      Decoder).vertexBufferSize = some (readU32 c 22) from eVB]
  rw [show ({ d9 with carry := if r9 < c.length then c.drop r9 else [] } :
      Decoder).hasUV = (headerResult c).hasUV from eHUV]
  rw [show ({ d9 with carry := if r9 < c.length then c.drop r9 else [] } :
      Decoder).hasNormal = (headerResult c).hasNormal from eHN]
  rfl

/-! ### C1 -/

/-- C1. Decoding is NOT invariant under repartitioning: the empty-mesh header
delivered as one 30-byte chunk decodes to empty buffers, but the same bytes
delivered as 30 one-byte chunks throw a `RangeError` (after the 1-byte chunk
`[1]` consumes the index-size field, the component-bitmask guard
`chunkSize >= 1` still holds while `readIndex = chunkSize = 1`, so
`view.getUint8(1)` reads out of bounds) and the load rejects. -/
theorem c1_chunking_changes_result :
    (runDecode [emptyHeader30]).map (fun d => (d.vertices, d.indices, d.carry)) =
      .ok ([], [], []) ∧
    runDecode (emptyHeader30.map (fun b => [b])) = .error .rangeError :=
  ⟨rfl, rfl⟩

/-! ### C2 -/

/-- C2. End-of-stream before `Done` does not fail: with only the 30-byte
header of the concrete scenario delivered (6 vertex words and 3 indices
declared but none sent), the decoder is still in `VertexData`, yet `loadBOBJ`
resolves with the zero-filled preallocated buffers instead of reporting an
incomplete stream. -/
theorem c2_premature_eos_resolves :
    (runDecode [hdr30]).map (fun d => d.readState) = .ok .VertexData ∧
    loadBOBJ [hdr30] =
      .ok { vertexWords := [0, 0, 0, 0, 0, 0], indices := [0, 0, 0],
            indexWidth := some 1, scaleBits := 0x3FF8000000000000,
            offsetBits := (0, 0, 0) } :=
  ⟨rfl, rfl⟩

/-! ### C3 -/

/-- C3. The spec's concrete scenario fails even with the whole 57-byte stream
in a single chunk: the vertex words decode to [1,2,3,4,5,6], but the indices
come out as [0,0,0] instead of [0,1,0] — after the sixth vertex word only 3
bytes remain, the vertex loop guard `chunkSize - readIndex >= 4` fails before
the buffer-full check can switch the state to `IndexData`, and the index
bytes end the decode unconsumed in the carry buffer. -/
theorem c3_concrete_scenario_fails :
    loadBOBJ [stream57] =
      .ok { vertexWords := [1, 2, 3, 4, 5, 6], indices := [0, 0, 0],
            indexWidth := some 1, scaleBits := 0x3FF8000000000000,
            offsetBits := (0, 0, 0) } ∧
    ([0, 0, 0] : List Nat) ≠ [0, 1, 0] :=
  ⟨rfl, by decide⟩

/-! ### C4 -/

/-- C4. The vertex-to-index transition is not immediate: on the 57-byte
stream in one chunk the vertex write index reaches the declared count 6, but
because fewer than 4 bytes remain in the chunk the decoder stays in
`VertexData`; the 3 remaining bytes are not handed to the index stage in the
same pass (no index is written) and become the carry buffer instead. -/
theorem c4_transition_needs_four_bytes :
    (runDecode [stream57]).map
      (fun d => (d.readState, d.vertexWriteIndex, d.vertexBufferSize,
                 d.indicesWriteIndex, d.carry)) =
    .ok (.VertexData, 6, some 6, 0, [0, 1, 0]) :=
  rfl

/-! ### C5 -/

/-- C5 counterexample. A stream whose index-width byte is 7 is not rejected:
the decode runs to `Done` and resolves (there is no malformed-header failure
anywhere in the code — `DecodeErr` has no such case). -/
theorem c5_width7_not_rejected :
    loadBOBJ [width7Stream 11 12 13 14 15 16 17 18] =
      .ok { vertexWords := [], indices := [leU32 11 12 13 14], indexWidth := some 7,
            scaleBits := 0, offsetBits := (0, 0, 0) } :=
  rfl

/-- C5 amended. For an index-width byte of 7 the decoder falls into the
`default` switch branch: each index is read as a 4-byte little-endian u32
while `readIndex` advances by the raw width 7, so of the 8 payload bytes the
first four form the single index, bytes p4..p6 are skipped, and p7 is left in
the carry buffer; the state reaches `Done` with no error. -/
theorem c5_width7_fallback (p0 p1 p2 p3 p4 p5 p6 p7 : Nat) :
    (runDecode [width7Stream p0 p1 p2 p3 p4 p5 p6 p7]).map
      (fun d => (d.readState, d.indices, d.carry)) =
    .ok (.Done, [leU32 p0 p1 p2 p3], [p7]) :=
  rfl

/-! ### C6 -/

/-- C6 counterexample. After the single 34-byte chunk `emptyHeader30 ++
[9,9,9,9]` the decoder rests in `IndexData` (waiting for an `indexSize = 1`
byte wide field) while the carry buffer holds all 4 trailing bytes — the
carry is NOT strictly smaller than the pending field's byte-width. -/
theorem c6_carry_can_exceed_pending_width :
    (runDecode [emptyHeader30 ++ [9, 9, 9, 9]]).map
      (fun d => (pendingFieldWidth d, d.carry.length)) = .ok (some 1, 4) ∧
    ¬ (4 : Nat) < 1 :=
  ⟨rfl, by decide⟩

/-! ### C7 -/

/-- C7 counterexample. `appendChunks` unconditionally ends with
`return readChunk()`, so reads are issued after `Done`: on `doneStream`
followed by a junk chunk, two reads happen while the state is already `Done`
(one delivering the junk chunk, one observing end-of-stream), where the claim
requires zero. -/
theorem c7_reads_issued_after_done :
    readsAfterDone initDecoder [doneStream, [9]] = 2 ∧ (2 : Nat) ≠ 0 :=
  ⟨rfl, by decide⟩

/-- C6 amended. In every reachable resting state that still awaits mandatory
data — every state except `Done`, and except `IndexData` once all declared
indices are written — the carry buffer is strictly smaller than the pending
field's byte-width; it is rebuilt from the unconsumed tail (replaced, not
appended to) on every chunk boundary. -/
theorem c6_carry_invariant (chunks : List Chunk) (d : Decoder)
    (h : runDecode chunks = .ok d) (w : Nat)
    (hw : pendingFieldWidth d = some w)
    (hpend : d.readState = .IndexData →
      d.indicesWriteIndex < d.indexCount.getD 0) :
    d.carry.length < w := by
  have hinv := inv_run h
  cases hst : d.readState with
  | IndexSize =>
    have hb := inv_elim_is hst hinv
    have hw2 : (some 1 : Option Nat) = some w := by
      unfold pendingFieldWidth at hw
      rw [hst] at hw
      exact hw
    injection hw2 with hwv
    omega
  | VertexComponents => exact (inv_elim_vc hst hinv).elim
  | ScaleFactor =>
    obtain ⟨-, hb⟩ := inv_elim_sf hst hinv
    have hw2 : (some 8 : Option Nat) = some w := by
      unfold pendingFieldWidth at hw
      rw [hst] at hw
      exact hw
    injection hw2 with hwv
    omega
  | ModelOffset =>
    obtain ⟨-, hb⟩ := inv_elim_mo hst hinv
    have hw2 : (some 12 : Option Nat) = some w := by
      unfold pendingFieldWidth at hw
      rw [hst] at hw
      exact hw
    injection hw2 with hwv
    omega
  | VertexCount =>
    obtain ⟨-, hb⟩ := inv_elim_vcnt hst hinv
    have hw2 : (some 4 : Option Nat) = some w := by
      unfold pendingFieldWidth at hw
      rw [hst] at hw
      exact hw
    injection hw2 with hwv
    omega
  | IndexCount =>
    obtain ⟨-, -, hb⟩ := inv_elim_icnt hst hinv
    have hw2 : (some 4 : Option Nat) = some w := by
      unfold pendingFieldWidth at hw
      rw [hst] at hw
      exact hw
    injection hw2 with hwv
    omega
  | VertexData =>
    obtain ⟨-, -, -, hb⟩ := inv_elim_vd hst hinv
    have hw2 : (some 4 : Option Nat) = some w := by
      unfold pendingFieldWidth at hw
      rw [hst] at hw
      exact hw
    injection hw2 with hwv
    omega
  | IndexData =>
    obtain ⟨w1, n, hw1, hn, himp⟩ := inv_elim_id hst hinv
    have hw2 : d.indexSize = some w := by
      unfold pendingFieldWidth at hw
      rw [hst] at hw
      exact hw
    rw [hw1] at hw2
    injection hw2 with hwv
    have hlt := hpend hst
    rw [hn] at hlt
    simp only [Option.getD_some] at hlt
    have := himp hlt
    omega
  | Done =>
    have hw2 : (none : Option Nat) = some w := by
      unfold pendingFieldWidth at hw
      rw [hst] at hw
      exact hw
    exact absurd hw2 (by simp)

/-- C6 witness: after decoding the bare header `hdr30` the decoder rests in
`VertexData` with an empty carry, strictly below the pending 4-byte width. -/
theorem c6_carry_invariant_witness : dHdr30.carry.length < 4 :=
  c6_carry_invariant [hdr30] dHdr30 (by rfl) 4 (by rfl) (by decide)

/-- C7 amended. After `Done`, the decoder does not stop: `appendChunks` keeps
being invoked on further chunks until end-of-stream, but each such chunk is
only absorbed into the carry buffer — the decode state and the output buffers
never change (the merged bytes are stored wholesale as the new carry). -/
theorem c7_done_absorbs (d : Decoder) (chunk : Chunk)
    (h : d.readState = .Done) :
    appendChunks d chunk = .ok { d with carry := d.carry ++ chunk } := by
  have hne : ({ d with carry := [] } : Decoder).readState ≠ .IndexSize := by
    simp [h]
  have hrt : runTail2 (d.carry ++ chunk) { d with carry := [] } 0 =
      .ok ({ d with carry := [] }, 0) := by
    rw [runTail2, stageComponents_ne (by simp [h])]
    show runTail3 (d.carry ++ chunk) { d with carry := [] } 0 = _
    rw [runTail3_skip (by simp [h]) (by simp [h]) (by simp [h]) (by simp [h])]
    exact runLoops_other (by simp [h]) (by simp [h])
  simp only [appendChunks]
  simp only [stageIndexSize_ne hne]
  rw [hrt]
  show Except.ok ({ d with carry := if 0 < (d.carry ++ chunk).length then (d.carry ++ chunk).drop 0 else [] } : Decoder) = _
  by_cases hc : 0 < (d.carry ++ chunk).length
  · rw [if_pos hc, List.drop_zero]
  · rw [if_neg hc]
    rw [show d.carry ++ chunk = [] from List.eq_nil_of_length_eq_zero (by omega)]

/-- C7 witness: a junk chunk arriving after `doneStream` completed the decode
is stored in the carry buffer and nothing else changes. -/
theorem c7_done_absorbs_witness :
    appendChunks dDone [9] = .ok { dDone with carry := dDone.carry ++ [9] } :=
  c7_done_absorbs dDone [9] rfl

/-! ### C8 -/

/-- C8. For every stream whose first chunk contains at least the 30-byte
header, the header decodes per the wire format: byte 0 is the index width;
byte 1 the component bitmask (bit0 = UV, bit1 = normal, bit2 = color); bytes
2-9 the little-endian float64 scale bit pattern; bytes 10-21 three
little-endian float32 offset bit patterns; bytes 22-25 the little-endian u32
vertex word count; bytes 26-29 the little-endian u32 index count; and the
derived vertex count is the vertex word count divided by the stride (4 when
both normal and UV are present, 3 when exactly one is, 2 when neither). -/
theorem c8_header_layout (b0 b1 b2 b3 b4 b5 b6 b7 b8 b9 b10 b11 b12 b13 b14 b15
    b16 b17 b18 b19 b20 b21 b22 b23 b24 b25 b26 b27 b28 b29 : Nat) (rest : Chunk)
    (d : Decoder)
    (h : appendChunks initDecoder (b0 :: b1 :: b2 :: b3 :: b4 :: b5 :: b6 :: b7 ::
      b8 :: b9 :: b10 :: b11 :: b12 :: b13 :: b14 :: b15 :: b16 :: b17 :: b18 ::
      b19 :: b20 :: b21 :: b22 :: b23 :: b24 :: b25 :: b26 :: b27 :: b28 :: b29 ::
      rest) = .ok d) :
    d.indexSize = some b0 ∧
    d.hasUV = some (b1 &&& 1 != 0) ∧
    d.hasNormal = some (b1 &&& 2 != 0) ∧
    d.hasColor = some (b1 &&& 4 != 0) ∧
    d.scaleBits = leU64 b2 b3 b4 b5 b6 b7 b8 b9 ∧
    d.offsetBits = (leU32 b10 b11 b12 b13, leU32 b14 b15 b16 b17,
      leU32 b18 b19 b20 b21) ∧
    d.vertexBufferSize = some (leU32 b22 b23 b24 b25) ∧
    d.indexCount = some (leU32 b26 b27 b28 b29) ∧
    vertexCountOf d = some ((leU32 b22 b23 b24 b25 : ℚ) /
      (strideOf (b1 &&& 1 != 0) (b1 &&& 2 != 0) : ℚ)) := by
  have hg := c8_header_general (by simp only [List.length_cons]; omega) h
  exact hg

/-- C8 witness at a concrete header: index width 2, bitmask 3 (UV and
normal), scale bits 1, zero offsets, 5 vertex words, 0 indices. -/
theorem c8_header_layout_witness :
    dC8W.indexSize = some 2 ∧
    dC8W.hasUV = some (3 &&& 1 != 0) ∧
    dC8W.hasNormal = some (3 &&& 2 != 0) ∧
    dC8W.hasColor = some (3 &&& 4 != 0) ∧
    dC8W.scaleBits = leU64 1 0 0 0 0 0 0 0 ∧
    dC8W.offsetBits = (leU32 0 0 0 0, leU32 0 0 0 0, leU32 0 0 0 0) ∧
    dC8W.vertexBufferSize = some (leU32 5 0 0 0) ∧
    dC8W.indexCount = some (leU32 0 0 0 0) ∧
    vertexCountOf dC8W = some ((leU32 5 0 0 0 : ℚ) /
      (strideOf (3 &&& 1 != 0) (3 &&& 2 != 0) : ℚ)) :=
  c8_header_layout 2 3 1 0 0 0 0 0 0 0 0 0 0 0 0 0 0 0 0 0 0 0 5 0 0 0 0 0 0 0
    [] dC8W (by rfl)

/-! ### C9 -/

/-- C9. Every 30-byte stream declaring vertex word count 0 and index count 0
(count fields all zero, everything else arbitrary) decodes successfully: the
load resolves with empty vertex and index buffers and no byte beyond the
30-byte header is consumed (the carry stays empty). -/
theorem c9_empty_mesh_decodes (b0 b1 s0 s1 s2 s3 s4 s5 s6 s7 o0 o1 o2 o3 o4 o5
    o6 o7 o8 o9 o10 o11 : Nat) :
    loadBOBJ [[b0, b1, s0, s1, s2, s3, s4, s5, s6, s7,
               o0, o1, o2, o3, o4, o5, o6, o7, o8, o9, o10, o11,
               0, 0, 0, 0, 0, 0, 0, 0]] =
      .ok { vertexWords := [], indices := [], indexWidth := some b0,
            scaleBits := leU64 s0 s1 s2 s3 s4 s5 s6 s7,
            offsetBits := (leU32 o0 o1 o2 o3, leU32 o4 o5 o6 o7,
              leU32 o8 o9 o10 o11) } ∧
    (runDecode [[b0, b1, s0, s1, s2, s3, s4, s5, s6, s7,
                 o0, o1, o2, o3, o4, o5, o6, o7, o8, o9, o10, o11,
                 0, 0, 0, 0, 0, 0, 0, 0]]).map
      (fun d => (d.vertexBufferSize, d.indexCount, d.carry)) =
      .ok (some 0, some 0, []) :=
  ⟨rfl, rfl⟩

/-! ### C10 -/

/-- C10. Feeding an empty chunk to the decoder in any reachable resting state
is an identity step: the carry bytes are re-merged and re-stored with the
same contents, no field is consumed, and the whole closure state is
unchanged. -/
theorem c10_empty_chunk_identity (chunks : List Chunk) (d : Decoder)
    (h : runDecode chunks = .ok d) : appendChunks d [] = .ok d :=
  inv_empty_identity (inv_run h)

/-- C10 witness: an empty chunk after the bare header `hdr30` changes
nothing. -/
theorem c10_empty_chunk_identity_witness :
    appendChunks dHdr30 [] = .ok dHdr30 :=
  c10_empty_chunk_identity [hdr30] dHdr30 (by rfl)

end BOBJ
